import Mathlib

/-!
Verification development for a resume-shortlisting pipeline.

The development shallowly embeds the pipeline's Python sources:
`resume_parser.py` (text + contact extraction), `job_parser.py`
(job-description extraction) and `main.py` (batch matching, skill
filtering and client extraction).  External collaborators (the PDF
reader, the Word reader, the spaCy NLP model, the sentence-embedding
model and the file system) are modelled as explicit function-valued
parameters gathered in an `Env` structure; everything the repository
itself computes (the regex cascades, the per-file loops, the score
aggregation, the ranking) is translated directly from the source.

Python's `re` module is modelled by a small backtracking regex engine
(`RE`/`mrun`/`findall`) that follows Python semantics for the features
the repository's patterns use: leftmost matching, first-alternative
preference, greedy and lazy bounded repetition, a single capture group,
MULTILINE line anchors, the plain `^` anchor, and the plain `$` anchor
(end of string, or just before one final newline).
-/

/-! ## Python string primitives -/

/-- Characters matched by Python's `\s` (ASCII fragment, which is all the
repository's inputs use). -/
def isPySpace (c : Char) : Bool :=
  c == ' ' || c == '\t' || c == '\n' || c == '\r' || c == '\x0b' || c == '\x0c'

/-- Python `str.strip()` on a character list. -/
def pyStripL (l : List Char) : List Char :=
  ((l.dropWhile isPySpace).reverse.dropWhile isPySpace).reverse

/-- Python `str.strip()`. -/
def pyStrip (s : String) : String := ⟨pyStripL s.data⟩

/-- Python `str.lower()` (ASCII fragment). -/
def pyLower (s : String) : String := ⟨s.data.map Char.toLower⟩

/-- Python `suffix in s` substring test, on character lists. -/
def listContains : List Char → List Char → Bool
  | hay, needle =>
    needle.isPrefixOf hay ||
      (match hay with
       | [] => false
       | _ :: cs => listContains cs needle)

/-- Python `needle in hay` substring test on strings. -/
def pyIn (needle hay : String) : Bool := listContains hay.data needle.data

/-- Python `s.endswith(suffix)`. -/
def pyEndsWith (s suf : String) : Bool := suf.data.isSuffixOf s.data

/-- Python `str.split()` helper: accumulate the current word (reversed). -/
def pySplitWsAux : List Char → List Char → List (List Char)
  | [], acc => if acc.isEmpty then [] else [acc.reverse]
  | c :: cs, acc =>
    if isPySpace c then
      if acc.isEmpty then pySplitWsAux cs [] else acc.reverse :: pySplitWsAux cs []
    else pySplitWsAux cs (c :: acc)

/-- Python `str.split()` with no argument: split on whitespace runs,
dropping empty fields. -/
def pySplitWs (s : String) : List String :=
  (pySplitWsAux s.data []).map fun w => ⟨w⟩

/-- Python `str.replace(pat, rpl)` worker; the fuel only bounds recursion
depth and `s.length + 1` is always enough for a non-empty pattern. -/
def pyReplaceAux : Nat → List Char → List Char → List Char → List Char
  | 0, _, _, s => s
  | _ + 1, _, _, [] => []
  | f + 1, pat, rpl, c :: cs =>
    if pat ≠ [] ∧ pat.isPrefixOf (c :: cs) then
      rpl ++ pyReplaceAux f pat rpl ((c :: cs).drop pat.length)
    else c :: pyReplaceAux f pat rpl cs

/-- Python `s.replace(pat, rpl)` (non-overlapping, left to right). -/
def pyReplace (pat rpl s : String) : String :=
  ⟨pyReplaceAux (s.data.length + 1) pat.data rpl.data s.data⟩

/-- Root part of Python `os.path.splitext` for a bare file name (no
directory separators): split at the last dot provided some earlier
character of the name is not a dot. -/
def splitextRoot (s : List Char) : List Char :=
  match s.reverse.findIdx? (fun c => c == '.') with
  | none => s
  | some ri =>
    let d := s.length - 1 - ri
    if (s.take d).any (fun c => !(c == '.')) then s.take d else s

/-- Python `max` over a list of similarity scores; only ever applied to a
non-empty list by the embedded code, mirroring `max(similarities)`. -/
def listMax : List ℚ → ℚ
  | [] => 0
  | x :: xs => xs.foldl max x

/-- Python `os.path.join(root, filename)` for a separator-free file name. -/
def pathJoin (root fn : String) : String :=
  if root = "" then fn
  else if pyEndsWith root "/" then root ++ fn
  else root ++ "/" ++ fn

/-! ## A backtracking regex engine with Python `re` semantics -/

/-- Regex abstract syntax: character classes, sequencing, prioritized
alternation, bounded greedy/lazy repetition, one capture group, MULTILINE
line anchors (`bolM`/`eolM`), start of string (`sos`) and the
non-MULTILINE `$` (`eosD`). -/
inductive RE where
  | eps : RE
  | cls (p : Char → Bool) : RE
  | seq (a b : RE) : RE
  | alt (a b : RE) : RE
  | rep (lo : Nat) (hi : Option Nat) (lazy : Bool) (a : RE) : RE
  | group (a : RE) : RE
  | bolM : RE
  | eolM : RE
  | sos : RE
  | eosD : RE

/-- Structural size of a regex, used to budget matcher fuel. -/
def RE.size : RE → Nat
  | .eps | .cls _ | .bolM | .eolM | .sos | .eosD => 1
  | .seq a b | .alt a b => a.size + b.size + 1
  | .rep _ _ _ a => a.size + 1
  | .group a => a.size + 1

/-- Matcher state: the character just before the current position (for
anchors), the remaining input, and the capture of group 1 if taken. -/
structure MState where
  prev : Option Char
  rest : List Char
  cap : Option (List Char)
deriving DecidableEq, Repr

/-- All end states of matching a regex at a state, in Python's preference
order (first result = Python's match).  Fuel only bounds recursion depth;
every repetition body in the repository's patterns consumes input, so a
budget of `(input length + 2) * (pattern size + 2)` is always enough. -/
def mrun : Nat → RE → MState → List MState
  | 0, _, _ => []
  | _ + 1, .eps, s => [s]
  | _ + 1, .cls p, s =>
    match s.rest with
    | [] => []
    | c :: cs => if p c then [⟨some c, cs, s.cap⟩] else []
  | f + 1, .seq a b, s => (mrun f a s).flatMap (mrun f b)
  | f + 1, .alt a b, s => mrun f a s ++ mrun f b s
  | f + 1, .rep lo hi lz a, s =>
    let stop : List MState := if lo = 0 then [s] else []
    let go : List MState :=
      if hi = some 0 then []
      else (mrun f a s).flatMap (mrun f (.rep (lo - 1) (hi.map (· - 1)) lz a))
    if lz then stop ++ go else go ++ stop
  | f + 1, .group a, s =>
    (mrun f a s).map fun s2 =>
      { s2 with cap := some (s.rest.take (s.rest.length - s2.rest.length)) }
  | _ + 1, .bolM, s =>
    match s.prev with
    | none => [s]
    | some c => if c = '\n' then [s] else []
  | _ + 1, .eolM, s =>
    match s.rest with
    | [] => [s]
    | c :: _ => if c = '\n' then [s] else []
  | _ + 1, .sos, s =>
    match s.prev with
    | none => [s]
    | some _ => []
  | _ + 1, .eosD, s =>
    match s.rest with
    | [] => [s]
    | [c] => if c = '\n' then [s] else []
    | _ => []

/-- Fuel budget for one match attempt. -/
def matchFuel (re : RE) (rest : List Char) : Nat :=
  (rest.length + 2) * (re.size + 2)

/-- Python's leftmost match attempt at one position. -/
def matchHere (re : RE) (prev : Option Char) (rest : List Char) : Option MState :=
  (mrun (matchFuel re rest) re ⟨prev, rest, none⟩).head?

/-- Worker for `re.findall`: scan left to right, emit each leftmost
non-overlapping match (full text and group-1 capture), resuming after
each match (one character further on an empty match). -/
def findallAux : Nat → RE → Option Char → List Char → List (List Char × Option (List Char))
  | 0, _, _, _ => []
  | f + 1, re, prev, rest =>
    match matchHere re prev rest with
    | none =>
      match rest with
      | [] => []
      | c :: cs => findallAux f re (some c) cs
    | some s2 =>
      let consumed := rest.take (rest.length - s2.rest.length)
      (consumed, s2.cap) ::
        (if consumed.isEmpty then
          match rest with
          | [] => []
          | c :: cs => findallAux f re (some c) cs
        else findallAux f re consumed.getLast? s2.rest)

/-- All matches of a pattern over a text, as (match, capture) pairs. -/
def findall (re : RE) (text : List Char) : List (List Char × Option (List Char)) :=
  findallAux (text.length + 1) re none text

/-- Python `re.findall` for a pattern with no capture group: the list of
full match texts. -/
def findallFull (re : RE) (text : List Char) : List (List Char) :=
  (findall re text).map (·.1)

/-- Python `re.findall` for a pattern with exactly one capture group: the
list of group-1 captures. -/
def findallGrp (re : RE) (text : List Char) : List (List Char) :=
  (findall re text).map fun m => m.2.getD []

/-! ## The repository's regex patterns -/

/-- Concatenation of a pattern list. -/
def rcat (l : List RE) : RE := l.foldr .seq .eps

/-- Single-character literal. -/
def rchar (c : Char) : RE := .cls (fun x => x == c)

/-- Literal string. -/
def rlit (s : String) : RE := rcat (s.data.map rchar)

/-- Case-insensitive literal string (for patterns compiled with
`re.IGNORECASE`). -/
def rlitCI (s : String) : RE :=
  rcat (s.data.map fun c => RE.cls (fun x => x.toLower == c.toLower))

/-- Greedy `+`. -/
def rplus (a : RE) : RE := .rep 1 none false a

/-- Greedy `*`. -/
def rstar (a : RE) : RE := .rep 0 none false a

/-- Lazy `+?`. -/
def rplusLazy (a : RE) : RE := .rep 1 none true a

/-- Greedy `?`. -/
def ropt (a : RE) : RE := .rep 0 (some 1) false a

/-- Greedy `{lo,hi}`. -/
def rrep (lo hi : Nat) (a : RE) : RE := .rep lo (some hi) false a

/-- Class `\d`. -/
def clsD : RE := .cls Char.isDigit

/-- Class `\s`. -/
def clsS : RE := .cls isPySpace

/-- Class `\w` (ASCII fragment). -/
def clsW : RE := .cls (fun c => c.isAlphanum || c == '_')

/-- Class `[-.\s]`. -/
def clsSep : RE := .cls (fun c => c == '-' || c == '.' || isPySpace c)

/-- Class `[A-Z]`. -/
def clsU : RE := .cls Char.isUpper

/-- Class `[a-z]`. -/
def clsL : RE := .cls Char.isLower

/-- Class `[^\n\r]`. -/
def clsNotNl : RE := .cls (fun c => !(c == '\n' || c == '\r'))

/-- Email pattern `[\w.+-]+@[\w-]+\.[\w.-]+` from `resume_parser.py`. -/
def emailRE : RE :=
  rcat [rplus (.cls (fun c => c.isAlphanum || c == '_' || c == '.' || c == '+' || c == '-')),
        rchar '@',
        rplus (.cls (fun c => c.isAlphanum || c == '_' || c == '-')),
        rchar '.',
        rplus (.cls (fun c => c.isAlphanum || c == '_' || c == '.' || c == '-'))]

/-- Optional country code `(?:\+\d{1,3}[-.\s]?)?` shared by the phone
patterns. -/
def ccodeOpt : RE := ropt (rcat [rchar '+', rrep 1 3 clsD, ropt clsSep])

/-- Phone pattern 1 (North-American style)
`(?:\+\d{1,3}[-.\s]?)?\(?\d{3}\)?[-.\s]?\d{3}[-.\s]?\d{4}`. -/
def phoneRE1 : RE :=
  rcat [ccodeOpt, ropt (rchar '('), rrep 3 3 clsD, ropt (rchar ')'),
        ropt clsSep, rrep 3 3 clsD, ropt clsSep, rrep 4 4 clsD]

/-- Phone pattern 2 `(?:\+\d{1,3}[-.\s]?)?\d{5}[-.\s]?\d{5,6}`. -/
def phoneRE2 : RE :=
  rcat [ccodeOpt, rrep 5 5 clsD, ropt clsSep, rrep 5 6 clsD]

/-- Phone pattern 3 (generic international)
`(?:\+\d{1,3}[-.\s]?)?\d{2,4}[-.\s]?\d{2,4}[-.\s]?\d{2,4}[-.\s]?\d{2,4}`. -/
def phoneRE3 : RE :=
  rcat [ccodeOpt, rrep 2 4 clsD, ropt clsSep, rrep 2 4 clsD,
        ropt clsSep, rrep 2 4 clsD, ropt clsSep, rrep 2 4 clsD]

/-- The ordered phone pattern cascade of `resume_parser.py`. -/
def phonePatterns : List RE := [phoneRE1, phoneRE2, phoneRE3]

/-- Name body `[A-Z][a-z]+(?:\s[A-Z][a-z]+){1,3}` (2 to 4 capitalized
words). -/
def nameCore : RE :=
  rcat [clsU, rplus clsL, rrep 1 3 (rcat [clsS, clsU, rplus clsL])]

/-- Name pattern 1 `^([A-Z][a-z]+(?:\s[A-Z][a-z]+){1,3})\s*$`
(MULTILINE). -/
def nameRE1 : RE := rcat [.bolM, .group nameCore, rstar clsS, .eolM]

/-- Name pattern 2 `^([A-Z]+\s+[A-Z]+(?:\s+[A-Z]+)?)\s*$` (MULTILINE). -/
def nameRE2 : RE :=
  rcat [.bolM,
        .group (rcat [rplus clsU, rplus clsS, rplus clsU,
                      ropt (rcat [rplus clsS, rplus clsU])]),
        rstar clsS, .eolM]

/-- Name pattern 3 `(?:Name|NAME):\s*([A-Z][a-z]+(?:\s[A-Z][a-z]+){1,3})`
(MULTILINE). -/
def nameRE3 : RE :=
  rcat [.alt (rlit "Name") (rlit "NAME"), rchar ':', rstar clsS, .group nameCore]

/-- Name pattern 4 `(?:^|\n)([A-Z][a-z]+(?:\s[A-Z][a-z]+){1,3})(?:\n|$)`
(MULTILINE). -/
def nameRE4 : RE :=
  rcat [.alt .bolM (rchar '\n'), .group nameCore, .alt (rchar '\n') .eolM]

/-- The ordered name pattern cascade of `resume_parser.py`. -/
def namePatterns : List RE := [nameRE1, nameRE2, nameRE3, nameRE4]

/-- Client pattern 1 `(?:^|\n)\s*Client\s*[:]\s*([^\n\r]+?)(?:\s*\n|$)`
(IGNORECASE, no MULTILINE). -/
def clientRE1 : RE :=
  rcat [.alt .sos (rchar '\n'), rstar clsS, rlitCI "Client", rstar clsS,
        rchar ':', rstar clsS, .group (rplusLazy clsNotNl),
        .alt (rcat [rstar clsS, rchar '\n']) .eosD]

/-- Client pattern 2 `(?:^|\n)\s*Client\s+[:]\s*([^\n\r]+?)(?:\s*\n|$)`
(IGNORECASE, no MULTILINE). -/
def clientRE2 : RE :=
  rcat [.alt .sos (rchar '\n'), rstar clsS, rlitCI "Client", rplus clsS,
        rchar ':', rstar clsS, .group (rplusLazy clsNotNl),
        .alt (rcat [rstar clsS, rchar '\n']) .eosD]

/-- Client pattern 3 `(?:^|\n)\s*Client\s*[:]\s*\n?\s*([^\n\r]+?)(?:\s*\n|$)`
(IGNORECASE, no MULTILINE). -/
def clientRE3 : RE :=
  rcat [.alt .sos (rchar '\n'), rstar clsS, rlitCI "Client", rstar clsS,
        rchar ':', rstar clsS, ropt (rchar '\n'), rstar clsS,
        .group (rplusLazy clsNotNl),
        .alt (rcat [rstar clsS, rchar '\n']) .eosD]

/-- The client pattern list of `main.py`. -/
def clientPatterns : List RE := [clientRE1, clientRE2, clientRE3]


/-! ## Environment: external collaborators as explicit parameters

The PDF reader (`pdfplumber`), the Word reader (`python-docx`), the file
system, the spaCy model and the sentence-embedding model are external to
the repository; they are modelled as function-valued fields.  `sim a b`
stands for `cosine_similarity(encode(a), encode(b))`, which is how every
similarity in `main.py` is produced (the embedding model is a
deterministic per-process singleton, so similarity is a function of the
two strings).  `walk` models the `os.walk` traversal of the resume
folder as the list of `(root, files)` pairs it yields. -/

/-- Result of running the spaCy pipeline on a text, keeping exactly the
three views `main.py` consumes: noun chunks, named entities as
(text, label) pairs, and sentences, each in document order. -/
structure Doc where
  nounChunks : List String
  ents : List (String × String)
  sents : List String

/-- External collaborators of the pipeline. -/
structure Env where
  pdfPages : String → Except String (List (Option String))
  docxParas : String → Except String (List String)
  txtRead : String → Except String String
  pathExists : String → Bool
  ner : String → Except Unit (List (String × String))
  nlp : String → Doc
  sim : String → String → ℚ
  walk : List (String × List String)

/-- Contact information extracted from a resume (`resume_parser.py`);
fields default to empty and are never guaranteed non-empty here. -/
structure ContactInfo where
  name : String
  email : String
  phone : String
deriving DecidableEq, Repr

/-- Concatenated text of a PDF: `for page in pdf.pages: text +=
page.extract_text() or ""`. -/
def joinPages (pages : List (Option String)) : String :=
  pages.foldl (fun acc p => acc ++ p.getD "") ""

/-- Embedding of `extract_text_from_docx` (identical in
`resume_parser.py` and `job_parser.py`): join paragraph texts with
newlines; any reader failure is wrapped in a descriptive `ValueError`. -/
def extract_text_from_docx (docxParas : String → Except String (List String))
    (path : String) : Except String String :=
  match docxParas path with
  | .ok paras => .ok (String.intercalate "\n" paras)
  | .error e => .error ("Error extracting text from Word document: " ++ e)

/-- Text-extraction stage of `extract_resume_data`: PDF errors propagate
unwrapped (there is no try/except around the pdfplumber block), Word
errors are wrapped by `extract_text_from_docx`, and any other extension
raises `Unsupported file format`. -/
def extractResumeText (env : Env) (path : String) : Except String String :=
  if pyEndsWith (pyLower path) ".pdf" then
    match env.pdfPages path with
    | .ok pages => .ok (joinPages pages)
    | .error e => .error e
  else if pyEndsWith (pyLower path) ".docx" then
    extract_text_from_docx env.docxParas path
  else .error ("Unsupported file format: " ++ path)

/-- First match of the first pattern (no group) that matches anything:
the `for pattern in ...: if matches: ...; break` loop shape. -/
def firstPatternFull (pats : List RE) (text : List Char) : Option (List Char) :=
  match pats with
  | [] => none
  | p :: ps =>
    match findallFull p text with
    | [] => firstPatternFull ps text
    | m :: _ => some m

/-- First group-1 capture of the first pattern that matches anything. -/
def firstPatternCap (pats : List RE) (text : List Char) : Option (List Char) :=
  match pats with
  | [] => none
  | p :: ps =>
    match findallGrp p text with
    | [] => firstPatternCap ps text
    | m :: _ => some m

/-- Email extraction: first match of the email pattern, else empty. -/
def extractEmail (text : String) : String :=
  match findallFull emailRE text.data with
  | [] => ""
  | m :: _ => String.mk m

/-- Phone extraction: the ordered three-pattern cascade, first match of
the first pattern that matches anything, else empty. -/
def extractPhone (text : String) : String :=
  match firstPatternFull phonePatterns text.data with
  | none => ""
  | some m => String.mk m

/-- Name extraction from the four regex strategies: stripped first match
of the first strategy that yields any match, else empty. -/
def nameFromPatterns (text : String) : String :=
  match firstPatternCap namePatterns text.data with
  | none => ""
  | some m => pyStrip (String.mk m)

/-- The PERSON-entity scan of the spaCy fallback: first entity labeled
"PERSON" whose text has at least two whitespace-separated tokens. -/
def firstPersonName : List (String × String) → String
  | [] => ""
  | (t, lbl) :: rest =>
    if lbl = "PERSON" ∧ (pySplitWs t).length ≥ 2 then t else firstPersonName rest

/-- Name fallback via entity recognition over the first 1000 characters;
a recognition-engine failure is caught and leaves the name empty. -/
def nerFallbackName (ner : String → Except Unit (List (String × String)))
    (text : String) : String :=
  match ner (String.mk (text.data.take 1000)) with
  | .error _ => ""
  | .ok ents => firstPersonName ents

/-- Embedding of `extract_resume_data` (`resume_parser.py`): extract the
text by file type, then email, phone and name by the regex cascades with
the entity-recognition name fallback; all fields are stripped at the
end. -/
def extract_resume_data (env : Env) (path : String) :
    Except String (String × ContactInfo) :=
  match extractResumeText env path with
  | .error e => .error e
  | .ok text =>
    let email := extractEmail text
    let phone := extractPhone text
    let nameP := nameFromPatterns text
    let name := if nameP = "" then nerFallbackName env.ner text else nameP
    .ok (text, ⟨pyStrip name, pyStrip email, pyStrip phone⟩)

/-- Embedding of `extract_job_description` (`job_parser.py`): a string
that is not an existing path is returned as literal text; otherwise the
text file, Word or PDF branch runs, each wrapping its failure in a
descriptive `ValueError`. -/
def extract_job_description (env : Env) (source : String) : Except String String :=
  if !(env.pathExists source) then .ok source
  else if pyEndsWith (pyLower source) ".txt" && env.pathExists source then
    match env.txtRead source with
    | .ok t => .ok t
    | .error e => .error ("Error reading text file: " ++ e)
  else if pyEndsWith (pyLower source) ".docx" && env.pathExists source then
    extract_text_from_docx env.docxParas source
  else
    match env.pdfPages source with
    | .ok pages => .ok (joinPages pages)
    | .error e => .error ("Error extracting text from PDF: " ++ e)

/-! ## Client extraction (`extract_client_information` in `main.py`) -/

/-- Filter on a stripped capture: length greater than 2 and not in the
case-insensitive deny list. -/
def clientOk (name : String) : Bool :=
  decide (name.length > 2) &&
    !((["client", "customer", "account"] : List String).contains (pyLower name))

/-- Add one raw capture to the accumulated client set (modelled as a
duplicate-free list in first-insertion order; the source returns
`list(clients)` of a Python set, so only the underlying set is
significant). -/
def addClient (acc : List String) (c : String) : List String :=
  let name := pyStrip c
  if clientOk name then (if acc.contains name then acc else acc ++ [name]) else acc

/-- Embedding of `extract_client_information`: run the three client
patterns over the whole text in order, strip every capture, keep those
passing `clientOk`, deduplicated.  The optional pre-parsed document
argument of the source is unused when supplied, so it does not appear. -/
def extract_client_information (text : String) : List String :=
  (clientPatterns.flatMap fun p =>
    (findallGrp p text.data).map fun l => String.mk l).foldl addClient []

/-! ## Batch operations (`main.py`) -/

/-- Per-resume result of whole-document matching. -/
structure MatchResult where
  name : String
  phone : String
  email : String
  score : ℚ
  filename : String
  path : String
deriving DecidableEq

/-- Per-resume result of skill filtering. -/
structure SkillMatchResult where
  name : String
  phone : String
  email : String
  match_score : ℚ
  matched_skills : List String
  clients : List String
  filename : String
  path : String
deriving DecidableEq

/-- File-name eligibility test
`filename.lower().endswith(('.pdf', '.docx'))`. -/
def eligibleFile (fn : String) : Bool :=
  pyEndsWith (pyLower fn) ".pdf" || pyEndsWith (pyLower fn) ".docx"

/-- Fallback display name derived from the file name:
`os.path.splitext(filename)[0].replace("_", " ").replace("-", " ")`. -/
def nameFromFile (fn : String) : String :=
  pyReplace "-" " " (pyReplace "_" " " ⟨splitextRoot fn.data⟩)

/-- Replacement of an empty extracted name by the file-derived name,
performed by both batch loops before appending a result. -/
def fillName (ci : ContactInfo) (fn : String) : ContactInfo :=
  if ci.name = "" then { ci with name := nameFromFile fn } else ci

/-- Construction of one `MatchResult` from a successfully extracted
resume in `match_resumes`. -/
def matchCore (env : Env) (jobDesc fn rp text : String) (ci : ContactInfo) :
    MatchResult :=
  let ci2 := fillName ci fn
  ⟨ci2.name, ci2.phone, ci2.email, env.sim jobDesc text, fn, rp⟩

/-- The set of skill keywords of `filter_resumes_by_skills`. -/
def skillKeywords : List String :=
  ["experience", "proficient", "skill", "technology", "framework", "language", "tool"]

/-- Candidate skill phrases of a resume: every noun chunk, every entity
labeled ORG/PRODUCT/GPE, and every sentence containing a skill keyword
(case-insensitive substring), in that order. -/
def potentialSkills (doc : Doc) : List String :=
  doc.nounChunks
    ++ (doc.ents.filter fun e => (["ORG", "PRODUCT", "GPE"] : List String).contains e.2).map (·.1)
    ++ doc.sents.filter fun s => skillKeywords.any fun k => pyIn k (pyLower s)

/-- Core of one `filter_resumes_by_skills` iteration after successful
extraction: a skill matches when the maximum similarity of its embedding
against all candidate phrases reaches the threshold; the resume yields a
result only if some phrase exists and some skill matched, with the mean
of the matched skills' maxima as aggregate score. -/
def skillCore (env : Env) (skills : List String) (θ : ℚ) (fn rp text : String)
    (ci : ContactInfo) : Option SkillMatchResult :=
  let ci2 := fillName ci fn
  let ps := potentialSkills (env.nlp text)
  let clients := extract_client_information text
  if ps.isEmpty then none
  else
    let matched := skills.filter fun s => decide (θ ≤ listMax (ps.map (env.sim s)))
    let scores := matched.map fun s => listMax (ps.map (env.sim s))
    if matched.isEmpty then none
    else some ⟨ci2.name, ci2.phone, ci2.email, scores.sum / (scores.length : ℚ),
               matched, clients, fn, rp⟩

/-- Outcome of one file of a batch loop: skipped (wrong extension, or no
skill matched), a reported per-file error, or a result. -/
inductive FileOut (α : Type) where
  | skip : FileOut α
  | err (msg : String) : FileOut α
  | res (r : α) : FileOut α

/-- One `match_resumes` loop iteration over a `(root, filename)` pair:
the per-file try/except converts any extraction failure into a reported
message carrying the file path. -/
def fileOutM (env : Env) (jobDesc : String) (rfn : String × String) :
    FileOut MatchResult :=
  if eligibleFile rfn.2 then
    let rp := pathJoin rfn.1 rfn.2
    match extract_resume_data env rp with
    | .error e => .err ("Error processing " ++ rp ++ ": " ++ e)
    | .ok (text, ci) => .res (matchCore env jobDesc rfn.2 rp text ci)
  else .skip

/-- One `filter_resumes_by_skills` loop iteration over a
`(root, filename)` pair. -/
def fileOutS (env : Env) (skills : List String) (θ : ℚ) (rfn : String × String) :
    FileOut SkillMatchResult :=
  if eligibleFile rfn.2 then
    let rp := pathJoin rfn.1 rfn.2
    match extract_resume_data env rp with
    | .error e => .err ("Error processing " ++ rp ++ ": " ++ e)
    | .ok (text, ci) =>
      match skillCore env skills θ rfn.2 rp text ci with
      | none => .skip
      | some r => .res r
  else .skip

/-- Accumulate one file outcome: results and reported error messages are
appended in loop order. -/
def stepOut (f : α → FileOut β) (acc : List β × List String) (x : α) :
    List β × List String :=
  match f x with
  | .skip => acc
  | .err m => (acc.1, acc.2 ++ [m])
  | .res r => (acc.1 ++ [r], acc.2)

/-- The `(root, filename)` pairs visited by the nested
`for root, dirs, files in os.walk(...): for filename in files:` loops,
in visiting order. -/
def allFiles (walk : List (String × List String)) : List (String × String) :=
  walk.flatMap fun rf => rf.2.map fun fn => (rf.1, fn)

/-- Stable insertion into a list sorted by descending key. -/
def insertDesc (key : α → ℚ) (x : α) : List α → List α
  | [] => [x]
  | y :: ys => if key y ≤ key x then x :: y :: ys else y :: insertDesc key x ys

/-- Stable descending sort by a rational key: the same ordering as
Python's `sorted(results, key=..., reverse=True)` (stable, descending). -/
def sortDesc (key : α → ℚ) : List α → List α
  | [] => []
  | x :: xs => insertDesc key x (sortDesc key xs)

/-- Embedding of `match_resumes`: extract the job description (a failure
there propagates and aborts the whole call before any resume is
visited), then process every walked file, catching failures per file,
and sort results by descending score.  The second component collects the
reported per-file error messages. -/
def match_resumes (env : Env) (jdSource : String) :
    Except String (List MatchResult × List String) :=
  match extract_job_description env jdSource with
  | .error e => .error e
  | .ok jobDesc =>
    let p := (allFiles env.walk).foldl (stepOut (fileOutM env jobDesc)) ([], [])
    .ok (sortDesc (·.score) p.1, p.2)

/-- Embedding of `filter_resumes_by_skills`: process every walked file,
catching failures per file, and sort results by descending aggregate
match score.  The second component collects the reported per-file error
messages. -/
def filter_resumes_by_skills (env : Env) (skills : List String) (θ : ℚ) :
    List SkillMatchResult × List String :=
  let p := (allFiles env.walk).foldl (stepOut (fileOutS env skills θ)) ([], [])
  (sortDesc (·.match_score) p.1, p.2)

/-! ## Helper lemmas about the embedded operations -/

/-- Result projection of one file outcome. -/
def resOf (f : α → FileOut β) (x : α) : Option β :=
  match f x with
  | .res r => some r
  | _ => none

/-- Error projection of one file outcome. -/
def errOf (f : α → FileOut β) (x : α) : Option String :=
  match f x with
  | .err m => some m
  | _ => none

theorem foldl_stepOut (f : α → FileOut β) (l : List α) (rs : List β) (es : List String) :
    l.foldl (stepOut f) (rs, es) =
      (rs ++ l.filterMap (resOf f), es ++ l.filterMap (errOf f)) := by
  induction l generalizing rs es with
  | nil => simp
  | cons x xs ih =>
    cases h : f x with
    | skip => simp [stepOut, h, ih, resOf, errOf]
    | err m => simp [stepOut, h, ih, resOf, errOf]
    | res r => simp [stepOut, h, ih, resOf, errOf]

theorem mem_insertDesc (key : α → ℚ) (x z : α) (l : List α) :
    z ∈ insertDesc key x l ↔ z = x ∨ z ∈ l := by
  induction l with
  | nil => simp [insertDesc]
  | cons y ys ih =>
    simp only [insertDesc]
    split
    · simp [List.mem_cons]
    · simp only [List.mem_cons, ih]
      tauto

theorem length_insertDesc (key : α → ℚ) (x : α) (l : List α) :
    (insertDesc key x l).length = l.length + 1 := by
  induction l with
  | nil => simp [insertDesc]
  | cons y ys ih =>
    simp only [insertDesc]
    split <;> simp [ih]

theorem pairwise_insertDesc (key : α → ℚ) (x : α) (l : List α)
    (h : l.Pairwise fun a b => key b ≤ key a) :
    (insertDesc key x l).Pairwise fun a b => key b ≤ key a := by
  induction l with
  | nil => simp [insertDesc]
  | cons y ys ih =>
    rw [List.pairwise_cons] at h
    obtain ⟨hy, hys⟩ := h
    simp only [insertDesc]
    split <;> rename_i hc
    · rw [List.pairwise_cons]
      refine ⟨?_, List.pairwise_cons.mpr ⟨hy, hys⟩⟩
      intro z hz
      rcases List.mem_cons.mp hz with rfl | hz'
      · exact hc
      · exact le_trans (hy z hz') hc
    · rw [List.pairwise_cons]
      refine ⟨?_, ih hys⟩
      intro z hz
      rcases (mem_insertDesc key x z ys).mp hz with rfl | hz'
      · exact le_of_not_le hc
      · exact hy z hz'

theorem sortDesc_pairwise (key : α → ℚ) (l : List α) :
    (sortDesc key l).Pairwise fun a b => key b ≤ key a := by
  induction l with
  | nil => simp [sortDesc]
  | cons x xs ih => exact pairwise_insertDesc _ _ _ ih

theorem mem_sortDesc (key : α → ℚ) (l : List α) (z : α) :
    z ∈ sortDesc key l ↔ z ∈ l := by
  induction l with
  | nil => simp [sortDesc]
  | cons x xs ih =>
    simp only [sortDesc, mem_insertDesc, ih, List.mem_cons]

theorem length_sortDesc (key : α → ℚ) (l : List α) :
    (sortDesc key l).length = l.length := by
  induction l with
  | nil => simp [sortDesc]
  | cons x xs ih =>
    simp only [sortDesc, length_insertDesc, ih, List.length_cons]

theorem pyReplaceAux_ne_nil (f : Nat) (pat rpl s : List Char)
    (hs : s ≠ []) (hr : rpl ≠ []) : pyReplaceAux f pat rpl s ≠ [] := by
  match f, s with
  | 0, s => simpa [pyReplaceAux] using hs
  | f + 1, [] => exact absurd rfl hs
  | f + 1, c :: cs =>
    simp only [pyReplaceAux]
    split
    · simp [hr]
    · simp

theorem splitextRoot_ne_nil (s : List Char) (hs : s ≠ []) : splitextRoot s ≠ [] := by
  unfold splitextRoot
  cases h : s.reverse.findIdx? (fun c => c == '.') with
  | none => exact hs
  | some ri =>
    simp only
    split <;> rename_i hcond
    · intro h0
      rw [h0] at hcond
      simp at hcond
    · exact hs

theorem nameFromFile_ne_empty (fn : String) (h : eligibleFile fn = true) :
    nameFromFile fn ≠ "" := by
  have hfd : fn.data ≠ [] := by
    intro h0
    have hfe : fn = "" := String.ext h0
    rw [hfe] at h
    exact absurd h (by decide)
  have hroot : splitextRoot fn.data ≠ [] := splitextRoot_ne_nil _ hfd
  have h1 : (pyReplace "_" " " ⟨splitextRoot fn.data⟩).data ≠ [] :=
    pyReplaceAux_ne_nil _ _ _ _ hroot (by decide)
  have h2 : (pyReplace "-" " " (pyReplace "_" " " ⟨splitextRoot fn.data⟩)).data ≠ [] :=
    pyReplaceAux_ne_nil _ _ _ _ h1 (by decide)
  intro hcon
  rw [nameFromFile] at hcon
  rw [hcon] at h2
  exact h2 rfl

theorem firstPersonName_eq_find (ents : List (String × String)) :
    firstPersonName ents =
      ((ents.find? fun e =>
          decide (e.2 = "PERSON" ∧ 2 ≤ (pySplitWs e.1).length)).map (·.1)).getD "" := by
  induction ents with
  | nil => rfl
  | cons e rest ih =>
    obtain ⟨t, lbl⟩ := e
    by_cases hc : lbl = "PERSON" ∧ 2 ≤ (pySplitWs t).length
    · simp [firstPersonName, List.find?_cons, hc]
    · simp [firstPersonName, List.find?_cons, hc, ih]

/-- The raw group-1 captures collected by `extract_client_information`,
in pattern-then-position order. -/
def clientCaptures (text : String) : List String :=
  clientPatterns.flatMap fun p => (findallGrp p text.data).map fun l => String.mk l

theorem extract_client_information_eq_fold (text : String) :
    extract_client_information text = (clientCaptures text).foldl addClient [] := rfl

theorem mem_addClient (acc : List String) (c x : String) :
    x ∈ addClient acc c ↔
      x ∈ acc ∨ (pyStrip c = x ∧ clientOk (pyStrip c) = true) := by
  simp only [addClient]
  split <;> rename_i hok
  · split <;> rename_i hmem
    · constructor
      · intro hx
        exact Or.inl hx
      · rintro (hx | ⟨rfl, _⟩)
        · exact hx
        · simpa [List.elem_iff] using hmem
    · simp only [List.mem_append, List.mem_singleton]
      constructor
      · rintro (hx | rfl)
        · exact Or.inl hx
        · exact Or.inr ⟨rfl, hok⟩
      · rintro (hx | ⟨rfl, _⟩)
        · exact Or.inl hx
        · exact Or.inr rfl
  · constructor
    · intro hx
      exact Or.inl hx
    · rintro (hx | ⟨rfl, hok'⟩)
      · exact hx
      · exact absurd hok' hok

theorem mem_foldl_addClient (l acc : List String) (x : String) :
    x ∈ l.foldl addClient acc ↔
      x ∈ acc ∨ ∃ c ∈ l, pyStrip c = x ∧ clientOk (pyStrip c) = true := by
  induction l generalizing acc with
  | nil => simp
  | cons c cs ih =>
    simp only [List.foldl_cons, ih, mem_addClient, List.mem_cons]
    constructor
    · rintro ((hx | hcx) | ⟨d, hd, hdx⟩)
      · exact Or.inl hx
      · exact Or.inr ⟨c, Or.inl rfl, hcx⟩
      · exact Or.inr ⟨d, Or.inr hd, hdx⟩
    · rintro (hx | ⟨d, (rfl | hd), hdx⟩)
      · exact Or.inl (Or.inl hx)
      · exact Or.inl (Or.inr hdx)
      · exact Or.inr ⟨d, hd, hdx⟩

theorem nodup_addClient (acc : List String) (c : String) (h : acc.Nodup) :
    (addClient acc c).Nodup := by
  simp only [addClient]
  split
  · split <;> rename_i hmem
    · exact h
    · simp only [List.nodup_append, List.nodup_cons, List.nodup_nil]
      refine ⟨h, by simp, ?_⟩
      intro a ha hb
      simp only [List.mem_singleton] at hb
      subst hb
      exact hmem (by simpa [List.elem_iff] using ha)
  · exact h

theorem nodup_foldl_addClient (l acc : List String) (h : acc.Nodup) :
    (l.foldl addClient acc).Nodup := by
  induction l generalizing acc with
  | nil => exact h
  | cons c cs ih => exact ih _ (nodup_addClient _ _ h)

theorem match_resumes_eq (env : Env) (jd jobDesc : String)
    (h : extract_job_description env jd = .ok jobDesc) :
    match_resumes env jd = .ok
      (sortDesc (·.score) ((allFiles env.walk).filterMap (resOf (fileOutM env jobDesc))),
       (allFiles env.walk).filterMap (errOf (fileOutM env jobDesc))) := by
  unfold match_resumes
  rw [h]
  dsimp only
  rw [foldl_stepOut]
  simp

theorem filter_resumes_eq (env : Env) (skills : List String) (θ : ℚ) :
    filter_resumes_by_skills env skills θ =
      (sortDesc (·.match_score) ((allFiles env.walk).filterMap (resOf (fileOutS env skills θ))),
       (allFiles env.walk).filterMap (errOf (fileOutS env skills θ))) := by
  unfold filter_resumes_by_skills
  rw [foldl_stepOut]
  simp

theorem clientOk_iff (x : String) :
    clientOk x = true ↔
      2 < x.length ∧ pyLower x ∉ (["client", "customer", "account"] : List String) := by
  simp [clientOk, List.elem_iff]

/-! ## Claims -/

/-- C5: `extract_client_information` returns exactly the distinct trimmed
captures of the "Client:" patterns matched case-insensitively over the
whole text, excluding every capture whose trimmed length is at most 2 or
that equals "client", "customer" or "account" case-insensitively; in
particular `"Client: Acme Corp\nClient:customer\n"` yields exactly the
set containing "Acme Corp". -/
theorem c5_client_extraction :
    (∀ text x, x ∈ extract_client_information text ↔
        (∃ c ∈ clientCaptures text, pyStrip c = x) ∧
          2 < x.length ∧
          pyLower x ∉ (["client", "customer", "account"] : List String)) ∧
    (∀ text, (extract_client_information text).Nodup) ∧
    extract_client_information "Client: Acme Corp\nClient:customer\n" = ["Acme Corp"] := by
  refine ⟨?_, ?_, ?_⟩
  · intro text x
    rw [extract_client_information_eq_fold, mem_foldl_addClient]
    simp only [List.not_mem_nil, false_or]
    constructor
    · rintro ⟨c, hc, hcx, hok⟩
      rw [hcx, clientOk_iff] at hok
      exact ⟨⟨c, hc, hcx⟩, hok⟩
    · rintro ⟨⟨c, hc, hcx⟩, hlen, hmem⟩
      refine ⟨c, hc, hcx, ?_⟩
      rw [hcx, clientOk_iff]
      exact ⟨hlen, hmem⟩
  · intro text
    rw [extract_client_information_eq_fold]
    exact nodup_foldl_addClient _ _ List.nodup_nil
  · decide

/-- C6: a job-description source string that does not resolve to an
existing file path is returned unchanged by `extract_job_description`. -/
theorem c6_literal_job_text (env : Env) (s : String)
    (h : env.pathExists s = false) : extract_job_description env s = .ok s := by
  unfold extract_job_description
  rw [h]
  simp

/-- Shared witness environment with an empty file system. -/
def noFsEnv : Env :=
  ⟨fun _ => .error "no file", fun _ => .error "no file", fun _ => .error "no file",
   fun _ => false, fun _ => .error (), fun _ => ⟨[], [], []⟩, fun _ _ => 0, []⟩

/-- C6 witness: a concrete pasted job-description string is returned
unchanged. -/
theorem c6_literal_job_text_witness :
    extract_job_description noFsEnv "Senior Python Developer" =
      .ok "Senior Python Developer" :=
  c6_literal_job_text noFsEnv "Senior Python Developer" rfl

/-- C3: phone extraction tries the three phone patterns in their fixed
order (North-American first, then the 5+5/6-digit grouping, then the
generic 2-to-4-digit grouping), returns the first match of the first
pattern that matches anything, never merges matches across patterns, and
yields the empty string if no pattern matches; in particular, for a text
containing both "(555) 123-4567" and an international grouped number the
North-American pattern's match is returned. -/
theorem c3_phone_pattern_order :
    (∀ text : String,
      (∀ m ms, findallFull phoneRE1 text.data = m :: ms →
        extractPhone text = ⟨m⟩) ∧
      (findallFull phoneRE1 text.data = [] →
        ∀ m ms, findallFull phoneRE2 text.data = m :: ms →
          extractPhone text = ⟨m⟩) ∧
      (findallFull phoneRE1 text.data = [] → findallFull phoneRE2 text.data = [] →
        ∀ m ms, findallFull phoneRE3 text.data = m :: ms →
          extractPhone text = ⟨m⟩) ∧
      (findallFull phoneRE1 text.data = [] → findallFull phoneRE2 text.data = [] →
        findallFull phoneRE3 text.data = [] → extractPhone text = "")) ∧
    extractPhone "Call (555) 123-4567 or +91 98765 43210" = "(555) 123-4567" := by
  constructor
  · intro text
    refine ⟨?_, ?_, ?_, ?_⟩
    · intro m ms h1
      simp [extractPhone, phonePatterns, firstPatternFull, h1]
    · intro h1 m ms h2
      simp [extractPhone, phonePatterns, firstPatternFull, h1, h2]
    · intro h1 h2 m ms h3
      simp [extractPhone, phonePatterns, firstPatternFull, h1, h2, h3]
    · intro h1 h2 h3
      simp [extractPhone, phonePatterns, firstPatternFull, h1, h2, h3]
  · decide

/-- C3 witness: the cascade applied at the concrete two-number text,
discharging the first-pattern hypothesis there. -/
theorem c3_phone_pattern_order_witness :
    extractPhone "Call (555) 123-4567 or +91 98765 43210" = ⟨"(555) 123-4567".data⟩ :=
  (c3_phone_pattern_order.1 "Call (555) 123-4567 or +91 98765 43210").1
    "(555) 123-4567".data [] (by decide)

/-! ## Engine lemmas used for the name-cascade claim -/

theorem mem_mrun_eps {f : Nat} {s s2 : MState} (h : s2 ∈ mrun (f + 1) .eps s) :
    s2 = s := by
  simpa [mrun] using h

theorem mem_mrun_cls {f : Nat} {p : Char → Bool} {s s2 : MState}
    (h : s2 ∈ mrun (f + 1) (.cls p) s) :
    ∃ c cs, s.rest = c :: cs ∧ p c = true ∧ s2 = ⟨some c, cs, s.cap⟩ := by
  rw [mrun] at h
  cases hr : s.rest with
  | nil => rw [hr] at h; simp at h
  | cons c cs =>
    rw [hr] at h
    by_cases hp : p c = true
    · simp only [hp, if_true, List.mem_singleton] at h
      exact ⟨c, cs, rfl, hp, h⟩
    · simp [hp] at h

theorem mem_mrun_seq {f : Nat} {a b : RE} {s s2 : MState}
    (h : s2 ∈ mrun (f + 1) (.seq a b) s) :
    ∃ s1, s1 ∈ mrun f a s ∧ s2 ∈ mrun f b s1 := by
  rw [mrun] at h
  simpa [List.mem_flatMap] using h

theorem mem_mrun_alt {f : Nat} {a b : RE} {s s2 : MState}
    (h : s2 ∈ mrun (f + 1) (.alt a b) s) :
    s2 ∈ mrun f a s ∨ s2 ∈ mrun f b s := by
  rw [mrun] at h
  simpa [List.mem_append] using h

theorem mem_mrun_rep {f : Nat} {lo : Nat} {hi : Option Nat} {lz : Bool} {a : RE}
    {s s2 : MState} (h : s2 ∈ mrun (f + 1) (.rep lo hi lz a) s) :
    (lo = 0 ∧ s2 = s) ∨
      (hi ≠ some 0 ∧ ∃ s1, s1 ∈ mrun f a s ∧
        s2 ∈ mrun f (.rep (lo - 1) (hi.map (· - 1)) lz a) s1) := by
  rw [mrun] at h
  by_cases hlz : lz = true <;> by_cases hlo : lo = 0 <;> by_cases hhi : hi = some 0 <;>
    simp only [hlz, hlo, hhi, if_true, if_false, Bool.false_eq_true, List.mem_append,
      List.mem_singleton, List.mem_flatMap, List.not_mem_nil, or_false, false_or,
      if_neg, ite_true, ite_false] at h ⊢ <;>
    tauto

theorem mem_mrun_group {f : Nat} {a : RE} {s s2 : MState}
    (h : s2 ∈ mrun (f + 1) (.group a) s) :
    ∃ s3, s3 ∈ mrun f a s ∧
      s2 = { s3 with cap := some (s.rest.take (s.rest.length - s3.rest.length)) } := by
  rw [mrun] at h
  simpa [List.mem_map, eq_comm] using h

theorem mem_mrun_anchor {f : Nat} {re : RE} {s s2 : MState}
    (hre : re = .bolM ∨ re = .eolM ∨ re = .sos ∨ re = .eosD)
    (h : s2 ∈ mrun (f + 1) re s) : s2 = s := by
  rcases hre with rfl | rfl | rfl | rfl <;> rw [mrun] at h <;>
    repeat' split at h
  all_goals simp_all

theorem mrun_rest_length :
    ∀ (f : Nat) (re : RE) (s s2 : MState), s2 ∈ mrun f re s →
      s2.rest.length ≤ s.rest.length := by
  intro f
  induction f with
  | zero => intro re s s2 h; simp [mrun] at h
  | succ f ih =>
    intro re s s2 h
    cases re with
    | eps => rw [mem_mrun_eps h]
    | cls p =>
      obtain ⟨c, cs, hr, _, rfl⟩ := mem_mrun_cls h
      rw [hr]
      simp
    | seq a b =>
      obtain ⟨s1, h1, h2⟩ := mem_mrun_seq h
      exact le_trans (ih b s1 s2 h2) (ih a s s1 h1)
    | alt a b =>
      rcases mem_mrun_alt h with h' | h'
      · exact ih a s s2 h'
      · exact ih b s s2 h'
    | rep lo hi lz a =>
      rcases mem_mrun_rep h with ⟨_, rfl⟩ | ⟨_, s1, h1, h2⟩
      · exact le_refl _
      · exact le_trans (ih _ s1 s2 h2) (ih a s s1 h1)
    | group a =>
      obtain ⟨s3, h3, rfl⟩ := mem_mrun_group h
      exact ih a s s3 h3
    | bolM => rw [mem_mrun_anchor (by simp) h]
    | eolM => rw [mem_mrun_anchor (by simp) h]
    | sos => rw [mem_mrun_anchor (by simp) h]
    | eosD => rw [mem_mrun_anchor (by simp) h]

/-- Syntactic absence of a capture group. -/
def RE.groupFree : RE → Bool
  | .eps | .cls _ | .bolM | .eolM | .sos | .eosD => true
  | .seq a b | .alt a b => a.groupFree && b.groupFree
  | .rep _ _ _ a => a.groupFree
  | .group _ => false

theorem mrun_cap_groupFree :
    ∀ (f : Nat) (re : RE), re.groupFree = true → ∀ (s s2 : MState),
      s2 ∈ mrun f re s → s2.cap = s.cap := by
  intro f
  induction f with
  | zero => intro re _ s s2 h; simp [mrun] at h
  | succ f ih =>
    intro re hgf s s2 h
    cases re with
    | eps => rw [mem_mrun_eps h]
    | cls p =>
      obtain ⟨c, cs, _, _, rfl⟩ := mem_mrun_cls h
      rfl
    | seq a b =>
      simp only [RE.groupFree, Bool.and_eq_true] at hgf
      obtain ⟨s1, h1, h2⟩ := mem_mrun_seq h
      rw [ih b hgf.2 s1 s2 h2, ih a hgf.1 s s1 h1]
    | alt a b =>
      simp only [RE.groupFree, Bool.and_eq_true] at hgf
      rcases mem_mrun_alt h with h' | h'
      · exact ih a hgf.1 s s2 h'
      · exact ih b hgf.2 s s2 h'
    | rep lo hi lz a =>
      simp only [RE.groupFree] at hgf
      rcases mem_mrun_rep h with ⟨_, rfl⟩ | ⟨_, s1, h1, h2⟩
      · rfl
      · rw [ih _ (by simpa [RE.groupFree] using hgf) s1 s2 h2, ih a hgf s s1 h1]
    | group a => simp [RE.groupFree] at hgf
    | bolM => rw [mem_mrun_anchor (by simp) h]
    | eolM => rw [mem_mrun_anchor (by simp) h]
    | sos => rw [mem_mrun_anchor (by simp) h]
    | eosD => rw [mem_mrun_anchor (by simp) h]

theorem mem_mrun_seqE {f : Nat} {a b : RE} {s s2 : MState}
    (h : s2 ∈ mrun f (.seq a b) s) :
    ∃ f' s1, s1 ∈ mrun f' a s ∧ s2 ∈ mrun f' b s1 := by
  cases f with
  | zero => simp [mrun] at h
  | succ f => exact ⟨f, mem_mrun_seq h⟩

/-- A capture starting with an uppercase character (hence non-empty and
surviving `str.strip`). -/
def capGood (c : List Char) : Prop := ∃ ch t, c = ch :: t ∧ ch.isUpper = true

/-- The regex consumes at least one character and its first consumed
character is uppercase. -/
def FirstUpper (A : RE) : Prop :=
  ∀ (f : Nat) (s s3 : MState), s3 ∈ mrun f A s →
    ∃ c cs, s.rest = c :: cs ∧ c.isUpper = true ∧ s3.rest.length ≤ cs.length

theorem firstUpper_clsU : FirstUpper clsU := by
  intro f s s3 h
  cases f with
  | zero => simp [mrun] at h
  | succ f =>
    obtain ⟨c, cs, hr, hp, rfl⟩ := mem_mrun_cls h
    exact ⟨c, cs, hr, hp, le_refl _⟩

theorem firstUpper_rplus_clsU : FirstUpper (rplus clsU) := by
  intro f s s3 h
  cases f with
  | zero => simp [mrun] at h
  | succ f =>
    have h' : s3 ∈ mrun (f + 1) (.rep 1 none false clsU) s := h
    rcases mem_mrun_rep h' with ⟨h0, _⟩ | ⟨_, s1, h1, h2⟩
    · exact absurd h0 (by decide)
    · cases f with
      | zero => simp [mrun] at h1
      | succ f' =>
        obtain ⟨c, cs, hr, hp, rfl⟩ := mem_mrun_cls h1
        have hlen := mrun_rest_length _ _ _ _ h2
        exact ⟨c, cs, hr, hp, by simpa using hlen⟩

theorem group_cap_of_firstUpper {A B : RE} (hA : FirstUpper A) :
    ∀ (f : Nat) (s s2 : MState), s2 ∈ mrun f (.group (.seq A B)) s →
      ∃ c, s2.cap = some c ∧ capGood c := by
  intro f s s2 h
  cases f with
  | zero => simp [mrun] at h
  | succ f =>
    obtain ⟨s3, h3, rfl⟩ := mem_mrun_group h
    obtain ⟨f', s4, h4, h5⟩ := mem_mrun_seqE h3
    obtain ⟨c, cs, hr, hU, hlen4⟩ := hA _ _ _ h4
    have hlen5 := mrun_rest_length _ _ _ _ h5
    refine ⟨_, rfl, ?_⟩
    rw [hr]
    have hle : s3.rest.length ≤ cs.length := le_trans hlen5 hlen4
    have hd : (c :: cs).length - s3.rest.length = (cs.length - s3.rest.length) + 1 := by
      simp only [List.length_cons]
      omega
    rw [hd, List.take_succ_cons]
    exact ⟨c, _, rfl, hU⟩

theorem nameRE1_cap {f : Nat} {s s2 : MState} (h : s2 ∈ mrun f nameRE1 s) :
    ∃ c, s2.cap = some c ∧ capGood c := by
  have h' : s2 ∈ mrun f (.seq .bolM (.seq (.group nameCore)
      (.seq (rstar clsS) (.seq .eolM .eps)))) s := h
  obtain ⟨f1, s1, _, h1⟩ := mem_mrun_seqE h'
  obtain ⟨f2, sg, hg, hpost⟩ := mem_mrun_seqE h1
  have hg' : sg ∈ mrun f2 (.group (.seq clsU
      (.seq (rplus clsL) (.seq (rrep 1 3 (rcat [clsS, clsU, rplus clsL])) .eps)))) s1 := hg
  obtain ⟨c, hcap, hcg⟩ := group_cap_of_firstUpper firstUpper_clsU _ _ _ hg'
  have hpres : s2.cap = sg.cap := mrun_cap_groupFree _ _ (by rfl) _ _ hpost
  exact ⟨c, by rw [hpres, hcap], hcg⟩

theorem nameRE2_cap {f : Nat} {s s2 : MState} (h : s2 ∈ mrun f nameRE2 s) :
    ∃ c, s2.cap = some c ∧ capGood c := by
  have h' : s2 ∈ mrun f (.seq .bolM (.seq (.group (.seq (rplus clsU)
      (.seq (rplus clsS) (.seq (rplus clsU)
        (.seq (ropt (rcat [rplus clsS, rplus clsU])) .eps)))))
      (.seq (rstar clsS) (.seq .eolM .eps)))) s := h
  obtain ⟨f1, s1, _, h1⟩ := mem_mrun_seqE h'
  obtain ⟨f2, sg, hg, hpost⟩ := mem_mrun_seqE h1
  obtain ⟨c, hcap, hcg⟩ := group_cap_of_firstUpper firstUpper_rplus_clsU _ _ _ hg
  have hpres : s2.cap = sg.cap := mrun_cap_groupFree _ _ (by rfl) _ _ hpost
  exact ⟨c, by rw [hpres, hcap], hcg⟩

theorem nameRE3_cap {f : Nat} {s s2 : MState} (h : s2 ∈ mrun f nameRE3 s) :
    ∃ c, s2.cap = some c ∧ capGood c := by
  have h' : s2 ∈ mrun f (.seq (.alt (rlit "Name") (rlit "NAME"))
      (.seq (rchar ':') (.seq (rstar clsS) (.seq (.group nameCore) .eps)))) s := h
  obtain ⟨f1, s1, _, h1⟩ := mem_mrun_seqE h'
  obtain ⟨f2, s2', _, h2⟩ := mem_mrun_seqE h1
  obtain ⟨f3, s3', _, h3⟩ := mem_mrun_seqE h2
  obtain ⟨f4, sg, hg, hpost⟩ := mem_mrun_seqE h3
  have hg' : sg ∈ mrun f4 (.group (.seq clsU
      (.seq (rplus clsL) (.seq (rrep 1 3 (rcat [clsS, clsU, rplus clsL])) .eps)))) s3' := hg
  obtain ⟨c, hcap, hcg⟩ := group_cap_of_firstUpper firstUpper_clsU _ _ _ hg'
  have hpres : s2.cap = sg.cap := mrun_cap_groupFree _ _ (by rfl) _ _ hpost
  exact ⟨c, by rw [hpres, hcap], hcg⟩

theorem nameRE4_cap {f : Nat} {s s2 : MState} (h : s2 ∈ mrun f nameRE4 s) :
    ∃ c, s2.cap = some c ∧ capGood c := by
  have h' : s2 ∈ mrun f (.seq (.alt .bolM (rchar '\n'))
      (.seq (.group nameCore) (.seq (.alt (rchar '\n') .eolM) .eps))) s := h
  obtain ⟨f1, s1, _, h1⟩ := mem_mrun_seqE h'
  obtain ⟨f2, sg, hg, hpost⟩ := mem_mrun_seqE h1
  have hg' : sg ∈ mrun f2 (.group (.seq clsU
      (.seq (rplus clsL) (.seq (rrep 1 3 (rcat [clsS, clsU, rplus clsL])) .eps)))) s1 := hg
  obtain ⟨c, hcap, hcg⟩ := group_cap_of_firstUpper firstUpper_clsU _ _ _ hg'
  have hpres : s2.cap = sg.cap := mrun_cap_groupFree _ _ (by rfl) _ _ hpost
  exact ⟨c, by rw [hpres, hcap], hcg⟩

theorem head?_mem_mrun {re : RE} {prev : Option Char} {rest : List Char} {s2 : MState}
    (h : matchHere re prev rest = some s2) :
    s2 ∈ mrun (matchFuel re rest) re ⟨prev, rest, none⟩ := by
  unfold matchHere at h
  rcases List.head?_eq_some_iff.mp h with ⟨ys, hys⟩
  rw [hys]
  exact List.mem_cons_self _ _

theorem findallAux_succ (f : Nat) (re : RE) (prev : Option Char) (rest : List Char) :
    findallAux (f + 1) re prev rest =
      match matchHere re prev rest with
      | none =>
        match rest with
        | [] => []
        | c :: cs => findallAux f re (some c) cs
      | some s2 =>
        let consumed := rest.take (rest.length - s2.rest.length)
        (consumed, s2.cap) ::
          (if consumed.isEmpty then
            match rest with
            | [] => []
            | c :: cs => findallAux f re (some c) cs
          else findallAux f re consumed.getLast? s2.rest) := rfl

theorem findallAux_cap {re : RE}
    (hre : ∀ (f : Nat) (prev : Option Char) (rest : List Char) (s2 : MState),
      s2 ∈ mrun f re ⟨prev, rest, none⟩ → ∃ c, s2.cap = some c ∧ capGood c) :
    ∀ (f : Nat) (prev : Option Char) (rest : List Char) m,
      m ∈ findallAux f re prev rest → ∃ c, m.2 = some c ∧ capGood c := by
  intro f
  induction f with
  | zero => intro prev rest m h; simp [findallAux] at h
  | succ f ih =>
    intro prev rest m h
    rw [findallAux_succ] at h
    cases hm : matchHere re prev rest with
    | none =>
      rw [hm] at h
      cases rest with
      | nil => simp at h
      | cons c cs => exact ih _ _ _ h
    | some s2 =>
      rw [hm] at h
      obtain ⟨c, hcap, hcg⟩ := hre _ _ _ _ (head?_mem_mrun hm)
      rcases List.mem_cons.mp h with rfl | htail
      · exact ⟨c, hcap, hcg⟩
      · split at htail
        · cases rest with
          | nil => simp at htail
          | cons c' cs' => exact ih _ _ _ htail
        · exact ih _ _ _ htail

theorem findallGrp_cap {re : RE}
    (hre : ∀ (f : Nat) (prev : Option Char) (rest : List Char) (s2 : MState),
      s2 ∈ mrun f re ⟨prev, rest, none⟩ → ∃ c, s2.cap = some c ∧ capGood c)
    (text m : List Char) (h : m ∈ findallGrp re text) : capGood m := by
  unfold findallGrp findall at h
  rw [List.mem_map] at h
  obtain ⟨pair, hp, rfl⟩ := h
  obtain ⟨c, hc, hcg⟩ := findallAux_cap hre _ _ _ _ hp
  rw [hc]
  exact hcg

theorem firstPatternCap_mem (pats : List RE) (text m : List Char)
    (h : firstPatternCap pats text = some m) : ∃ p ∈ pats, m ∈ findallGrp p text := by
  induction pats with
  | nil => simp [firstPatternCap] at h
  | cons p ps ih =>
    rw [firstPatternCap] at h
    cases hg : findallGrp p text with
    | nil =>
      rw [hg] at h
      obtain ⟨q, hq, hm⟩ := ih h
      exact ⟨q, List.mem_cons_of_mem _ hq, hm⟩
    | cons x xs =>
      rw [hg] at h
      obtain rfl : x = m := by
        simpa using h
      refine ⟨p, List.mem_cons_self _ _, ?_⟩
      rw [hg]
      exact List.mem_cons_self _ _

theorem name_cap_of_firstPatternCap (text m : List Char)
    (h : firstPatternCap namePatterns text = some m) : capGood m := by
  obtain ⟨p, hp, hm⟩ := firstPatternCap_mem _ _ _ h
  simp only [namePatterns, List.mem_cons, List.not_mem_nil, or_false] at hp
  rcases hp with rfl | rfl | rfl | rfl
  · exact findallGrp_cap (fun f prev rest s2 hh => nameRE1_cap hh) _ _ hm
  · exact findallGrp_cap (fun f prev rest s2 hh => nameRE2_cap hh) _ _ hm
  · exact findallGrp_cap (fun f prev rest s2 hh => nameRE3_cap hh) _ _ hm
  · exact findallGrp_cap (fun f prev rest s2 hh => nameRE4_cap hh) _ _ hm

theorem capGood_strip_ne (m : List Char) (hm : capGood m) : pyStrip ⟨m⟩ ≠ "" := by
  obtain ⟨ch, t, rfl, hU⟩ := hm
  have hns : isPySpace ch = false := by
    by_contra hsp
    rw [Bool.not_eq_false] at hsp
    simp only [isPySpace, Bool.or_eq_true, beq_iff_eq] at hsp
    rcases hsp with ((((rfl | rfl) | rfl) | rfl) | rfl) | rfl <;>
      exact absurd hU (by decide)
  intro hcon
  have hdata : pyStripL (ch :: t) = [] := congrArg String.data hcon
  rw [pyStripL, List.dropWhile_cons_of_neg (by simp [hns])] at hdata
  rw [List.reverse_eq_nil_iff, List.dropWhile_eq_nil_iff] at hdata
  have hch := hdata ch (by simp)
  rw [hns] at hch
  exact absurd hch (by simp)

theorem pyStripL_idem (l : List Char) : pyStripL (pyStripL l) = pyStripL l := by
  have hA : pyStripL l = List.rdropWhile isPySpace (l.dropWhile isPySpace) := rfl
  have h1 : List.dropWhile isPySpace (pyStripL l) = pyStripL l := by
    cases hR : pyStripL l with
    | nil => simp
    | cons c cs =>
      have hpre : pyStripL l <+: l.dropWhile isPySpace := by
        rw [hA]
        exact List.rdropWhile_prefix _ _
      obtain ⟨tl, htl⟩ := hpre
      have hdw : l.dropWhile isPySpace = c :: (cs ++ tl) := by
        rw [← htl, hR]
        simp
      have hidem := List.dropWhile_idempotent (p := isPySpace) (l := l)
      rw [hdw] at hidem
      cases hc : isPySpace c with
      | false =>
        exact List.dropWhile_cons_of_neg (by simp [hc])
      | true =>
        rw [List.dropWhile_cons_of_pos hc] at hidem
        have hlen := congrArg List.length hidem
        have hle := (List.dropWhile_sublist (l := cs ++ tl) isPySpace).length_le
        simp only [List.length_cons] at hlen
        omega
  have h2 : List.rdropWhile isPySpace (pyStripL l) = pyStripL l := by
    rw [hA]
    exact List.rdropWhile_idempotent _ _
  calc pyStripL (pyStripL l)
      = List.rdropWhile isPySpace ((pyStripL l).dropWhile isPySpace) := rfl
    _ = List.rdropWhile isPySpace (pyStripL l) := by rw [h1]
    _ = pyStripL l := h2

theorem pyStrip_idem (s : String) : pyStrip (pyStrip s) = pyStrip s :=
  congrArg String.mk (pyStripL_idem s.data)

/-- C4: name extraction tries the four regex strategies in their fixed
order and uses the stripped first match of the first strategy that
yields any match; if none matches, it scans the entities recognized over
only the first 1000 characters for the first PERSON-labeled entity whose
text has at least two whitespace-separated tokens; if that also yields
nothing — including when the recognition engine throws — the name is
empty, and the extraction still returns normally in every case. -/
theorem c4_name_cascade :
    (∀ (env : Env) (path text : String) (ci : ContactInfo),
      extract_resume_data env path = .ok (text, ci) →
      ((∀ m, firstPatternCap namePatterns text.data = some m →
          ci.name = pyStrip ⟨m⟩) ∧
       (firstPatternCap namePatterns text.data = none →
         ∀ ents, env.ner ⟨text.data.take 1000⟩ = .ok ents →
           ci.name = pyStrip (((ents.find? fun e =>
             decide (e.2 = "PERSON" ∧ 2 ≤ (pySplitWs e.1).length)).map (·.1)).getD "")) ∧
       (firstPatternCap namePatterns text.data = none →
         env.ner ⟨text.data.take 1000⟩ = .error () → ci.name = ""))) ∧
    (∀ (env : Env) (path text : String),
      extractResumeText env path = .ok text →
      ∃ ci, extract_resume_data env path = .ok (text, ci)) := by
  constructor
  · intro env path text ci h
    unfold extract_resume_data at h
    cases het : extractResumeText env path with
    | error e => rw [het] at h; exact absurd h (by simp)
    | ok t =>
      rw [het] at h
      simp only [Except.ok.injEq, Prod.mk.injEq] at h
      obtain ⟨rfl, rfl⟩ := h
      refine ⟨?_, ?_, ?_⟩
      · intro m hm
        have hname : nameFromPatterns t = pyStrip ⟨m⟩ := by
          unfold nameFromPatterns
          rw [hm]
        have hne : nameFromPatterns t ≠ "" := by
          rw [hname]
          exact capGood_strip_ne m (name_cap_of_firstPatternCap _ _ hm)
        dsimp only
        rw [if_neg hne, hname, pyStrip_idem]
      · intro hm ents hents
        have hname : nameFromPatterns t = "" := by
          unfold nameFromPatterns
          rw [hm]
        dsimp only
        rw [if_pos hname]
        unfold nerFallbackName
        rw [hents]
        dsimp only
        rw [firstPersonName_eq_find]
      · intro hm herr
        have hname : nameFromPatterns t = "" := by
          unfold nameFromPatterns
          rw [hm]
        dsimp only
        rw [if_pos hname]
        unfold nerFallbackName
        rw [herr]
        rfl
  · intro env path text het
    unfold extract_resume_data
    rw [het]
    exact ⟨_, rfl⟩

/-- C2: the list returned by `match_resumes` is sorted non-increasingly
by score, and the list returned by `filter_resumes_by_skills` is sorted
non-increasingly by aggregate match score. -/
theorem c2_results_sorted :
    (∀ (env : Env) (jd : String) (out : List MatchResult × List String),
      match_resumes env jd = .ok out →
        out.1.Pairwise fun a b => b.score ≤ a.score) ∧
    (∀ (env : Env) (skills : List String) (θ : ℚ),
      (filter_resumes_by_skills env skills θ).1.Pairwise
        fun a b => b.match_score ≤ a.match_score) := by
  constructor
  · intro env jd out h
    unfold match_resumes at h
    cases hjd : extract_job_description env jd with
    | error e => rw [hjd] at h; exact absurd h (by simp)
    | ok jobDesc =>
      rw [hjd] at h
      dsimp only at h
      obtain rfl : _ = out := by
        injection h
      exact sortDesc_pairwise _ _
  · intro env skills θ
    rw [filter_resumes_eq]
    exact sortDesc_pairwise _ _

/-- Witness environment for the sortedness claim: two resumes whose
similarity is the resume text length, so the two scores differ. -/
def c2Env : Env :=
  { noFsEnv with
    pdfPages := fun p =>
      if p = "./a.pdf" then .ok [some "Jo Ab\n"] else .ok [some "Zz Qq Rr Ss\n"],
    sim := fun _ t => ((t.length : ℕ) : ℚ),
    walk := [(".", ["a.pdf", "b.pdf"])] }

/-- C2 witness: the concrete two-resume batch comes out sorted by
descending score. -/
theorem c2_results_sorted_witness :
    List.Pairwise (fun a b : MatchResult => b.score ≤ a.score)
      [⟨"Zz Qq Rr Ss", "", "", ((12 : ℕ) : ℚ), "b.pdf", "./b.pdf"⟩,
       ⟨"Jo Ab", "", "", ((6 : ℕ) : ℚ), "a.pdf", "./a.pdf"⟩] :=
  c2_results_sorted.1 c2Env "job text"
    ([⟨"Zz Qq Rr Ss", "", "", ((12 : ℕ) : ℚ), "b.pdf", "./b.pdf"⟩,
      ⟨"Jo Ab", "", "", ((6 : ℕ) : ℚ), "a.pdf", "./a.pdf"⟩], []) (by rfl)

/-- C1: every entry of the skill-filter output comes from a successfully
extracted resume; its matched skills are exactly the target skills whose
maximum similarity against the candidate phrases reaches the threshold
(no skill matches when there is no candidate phrase); it appears only
because at least one skill matched; and its aggregate score is the
arithmetic mean of the matched skills' maxima (unmatched skills
contribute nothing). -/
theorem c1_skill_filter (env : Env) (skills : List String) (θ : ℚ) :
    ∀ r ∈ (filter_resumes_by_skills env skills θ).1,
      ∃ (fn rp text : String) (ci : ContactInfo),
        extract_resume_data env rp = .ok (text, ci) ∧
        r.filename = fn ∧ r.path = rp ∧
        r.matched_skills = skills.filter (fun s =>
          decide (θ ≤ listMax ((potentialSkills (env.nlp text)).map (env.sim s)))) ∧
        potentialSkills (env.nlp text) ≠ [] ∧
        r.matched_skills ≠ [] ∧
        r.match_score =
          ((r.matched_skills.map fun s =>
            listMax ((potentialSkills (env.nlp text)).map (env.sim s))).sum) /
            ((r.matched_skills.length : ℕ) : ℚ) := by
  intro r hr
  rw [filter_resumes_eq] at hr
  dsimp only at hr
  rw [mem_sortDesc, List.mem_filterMap] at hr
  obtain ⟨rfn, _, hres⟩ := hr
  unfold resOf at hres
  cases hout : fileOutS env skills θ rfn with
  | skip => rw [hout] at hres; exact absurd hres (by simp)
  | err m => rw [hout] at hres; exact absurd hres (by simp)
  | res r' =>
    rw [hout] at hres
    obtain rfl : r' = r := by simpa using hres
    unfold fileOutS at hout
    split at hout
    case isFalse => exact absurd hout (by simp)
    case isTrue helig =>
      dsimp only at hout
      cases hext : extract_resume_data env (pathJoin rfn.1 rfn.2) with
      | error e => rw [hext] at hout; exact absurd hout (by simp)
      | ok tc =>
        rw [hext] at hout
        obtain ⟨text, ci⟩ := tc
        dsimp only at hout
        cases hcore : skillCore env skills θ rfn.2 (pathJoin rfn.1 rfn.2) text ci with
        | none => rw [hcore] at hout; exact absurd hout (by simp)
        | some r'' =>
          rw [hcore] at hout
          obtain rfl : r'' = r' := by simpa using hout
          refine ⟨rfn.2, pathJoin rfn.1 rfn.2, text, ci, hext, ?_⟩
          unfold skillCore at hcore
          dsimp only at hcore
          by_cases hps : (potentialSkills (env.nlp text)).isEmpty = true
          · rw [if_pos hps] at hcore
            exact absurd hcore (by simp)
          · rw [if_neg hps] at hcore
            by_cases hm : (skills.filter fun s =>
                decide (θ ≤ listMax ((potentialSkills (env.nlp text)).map (env.sim s)))).isEmpty = true
            · rw [if_pos hm] at hcore
              exact absurd hcore (by simp)
            · rw [if_neg hm] at hcore
              obtain rfl := Option.some_inj.mp hcore
              refine ⟨rfl, rfl, rfl, ?_, ?_, ?_⟩
              · intro hnil
                exact hps (by rw [hnil]; rfl)
              · intro hnil
                exact hm (by rw [show (skills.filter fun s =>
                    decide (θ ≤ listMax ((potentialSkills (env.nlp text)).map (env.sim s)))) = []
                  from hnil]; rfl)
              · dsimp only
                rw [List.length_map]

/-- Witness environment for the skill-filter claim: one resume, one
candidate phrase, constant similarity 1. -/
def c1Env : Env :=
  { noFsEnv with
    pdfPages := fun _ => .ok [some "Jo Ab\n"],
    nlp := fun _ => ⟨["X"], [], []⟩,
    sim := fun _ _ => 1,
    walk := [(".", ["a.pdf"])] }

/-- The single entry produced by `filter_resumes_by_skills` on `c1Env`
with skill list `["Python"]` and threshold 0. -/
def c1View : SkillMatchResult :=
  ⟨"Jo Ab", "", "",
   ([(1 : ℚ)].sum) / (([(1 : ℚ)].length : ℕ) : ℚ),
   ["Python"], [], "a.pdf", "./a.pdf"⟩

/-- C1 witness: the skill-filter characterization applied to the entry
produced by the concrete one-resume environment. -/
theorem c1_skill_filter_witness :
    ∃ (fn rp text : String) (ci : ContactInfo),
      extract_resume_data c1Env rp = .ok (text, ci) ∧
      c1View.filename = fn ∧ c1View.path = rp ∧
      c1View.matched_skills = (["Python"] : List String).filter (fun s =>
        decide ((0 : ℚ) ≤ listMax ((potentialSkills (c1Env.nlp text)).map (c1Env.sim s)))) ∧
      potentialSkills (c1Env.nlp text) ≠ [] ∧
      c1View.matched_skills ≠ [] ∧
      c1View.match_score =
        ((c1View.matched_skills.map fun s =>
          listMax ((potentialSkills (c1Env.nlp text)).map (c1Env.sim s))).sum) /
          ((c1View.matched_skills.length : ℕ) : ℚ) := by
  apply c1_skill_filter c1Env ["Python"] 0 c1View
  have h : (filter_resumes_by_skills c1Env ["Python"] 0).1 = [c1View] := by rfl
  rw [h]
  exact List.mem_singleton.mpr rfl

/-- Witness environment for the name cascade: the resume text has a
regex-matchable name on its first line. -/
def c4Env : Env :=
  { noFsEnv with pdfPages := fun _ => .ok [some "Jo Ab\nx@y.z"] }

/-- C4 witness: the cascade applied at a concrete resume whose first
name strategy matches. -/
theorem c4_name_cascade_witness :
    (⟨"Jo Ab", "x@y.z", ""⟩ : ContactInfo).name = pyStrip ⟨"Jo Ab".data⟩ :=
  ((c4_name_cascade.1 c4Env "./a.pdf" "Jo Ab\nx@y.z" ⟨"Jo Ab", "x@y.z", ""⟩
      (by rfl)).1) "Jo Ab".data (by rfl)

/-- Counterexample environment for the empty-skill-list claim: one
corrupt resume file. -/
def c7Env : Env :=
  { noFsEnv with
    pdfPages := fun _ => .error "boom",
    walk := [(".", ["bad.pdf"])] }

/-- C7 counterexample: invoked with an empty skill list,
`filter_resumes_by_skills` still processes the resume files — the
corrupt file is read and its per-file error reported, so the operation
did not halt before any resume was processed. -/
theorem c7_counterexample :
    (filter_resumes_by_skills c7Env [] (1 / 2)).2 =
      ["Error processing ./bad.pdf: boom"] := by rfl

/-- C7 (amended): a missing/unreadable job description halts
`match_resumes` before any resume is processed (the extraction error
propagates with no per-file processing), but an empty skill list does
not halt `filter_resumes_by_skills`: the result list is empty while
every walked file is still processed, with per-file errors still
reported. -/
theorem c7_empty_inputs :
    (∀ (env : Env) (jd e : String), extract_job_description env jd = .error e →
      match_resumes env jd = .error e) ∧
    (∀ (env : Env) (θ : ℚ),
      (filter_resumes_by_skills env [] θ).1 = [] ∧
      (filter_resumes_by_skills env [] θ).2 =
        (allFiles env.walk).filterMap (errOf (fileOutS env [] θ))) := by
  constructor
  · intro env jd e h
    unfold match_resumes
    rw [h]
  · intro env θ
    rw [filter_resumes_eq]
    refine ⟨?_, rfl⟩
    dsimp only
    have hres : ∀ rfn, resOf (fileOutS env [] θ) rfn = none := by
      intro rfn
      cases hout : fileOutS env [] θ rfn with
      | skip => simp [resOf, hout]
      | err m => simp [resOf, hout]
      | res r =>
        exfalso
        unfold fileOutS at hout
        split at hout
        case isFalse => exact absurd hout (by simp)
        case isTrue helig =>
          dsimp only at hout
          cases hext : extract_resume_data env (pathJoin rfn.1 rfn.2) with
          | error e => rw [hext] at hout; exact absurd hout (by simp)
          | ok tc =>
            rw [hext] at hout
            obtain ⟨text, ci⟩ := tc
            dsimp only at hout
            have hsc : skillCore env [] θ rfn.2 (pathJoin rfn.1 rfn.2) text ci = none := by
              unfold skillCore
              dsimp only
              split
              · rfl
              · rfl
            rw [hsc] at hout
            exact absurd hout (by simp)
    rw [show (allFiles env.walk).filterMap (resOf (fileOutS env [] θ)) = [] by
      rw [List.filterMap_eq_nil_iff]
      exact fun a _ => hres a]
    rfl

/-- Witness environment whose job-description extraction always fails. -/
def c7jEnv : Env :=
  { noFsEnv with pathExists := fun _ => true, pdfPages := fun _ => .error "no pdf" }

/-- C7 witness for the amended claim: a failing job description halts
`match_resumes` with the extraction error, and the corrupt one-file
environment with an empty skill list yields no results while still
reporting its per-file error. -/
theorem c7_empty_inputs_witness :
    match_resumes c7jEnv "missing.bin" =
      .error ("Error extracting text from PDF: " ++ "no pdf") ∧
    (filter_resumes_by_skills c7Env [] (1 / 2)).1 = [] ∧
    (filter_resumes_by_skills c7Env [] (1 / 2)).2 =
      (allFiles c7Env.walk).filterMap (errOf (fileOutS c7Env [] (1 / 2))) :=
  ⟨c7_empty_inputs.1 c7jEnv "missing.bin" ("Error extracting text from PDF: " ++ "no pdf") (by rfl),
   (c7_empty_inputs.2 c7Env (1 / 2)).1, (c7_empty_inputs.2 c7Env (1 / 2)).2⟩

theorem length_filterMap_eq_countP (f : α → Option β) (l : List α) :
    (l.filterMap f).length = l.countP fun x => (f x).isSome := by
  induction l with
  | nil => rfl
  | cons x xs ih =>
    cases h : f x with
    | none => simp [List.filterMap_cons, List.countP_cons, h, ih]
    | some b => simp [List.filterMap_cons, List.countP_cons, h, ih]

/-- A file is eligible and its extraction succeeds. -/
def extractOk (env : Env) (rfn : String × String) : Bool :=
  eligibleFile rfn.2 &&
    (match extract_resume_data env (pathJoin rfn.1 rfn.2) with
     | .ok _ => true
     | .error _ => false)

/-- The reported per-file message of a failing eligible file, carrying
the file's path. -/
def fileErr (env : Env) (rfn : String × String) : Option String :=
  if eligibleFile rfn.2 = true then
    match extract_resume_data env (pathJoin rfn.1 rfn.2) with
    | .error e => some ("Error processing " ++ pathJoin rfn.1 rfn.2 ++ ": " ++ e)
    | .ok _ => none
  else none

theorem errOf_fileOutM (env : Env) (jobDesc : String) :
    errOf (fileOutM env jobDesc) = fileErr env := by
  funext rfn
  unfold errOf fileOutM fileErr
  by_cases helig : eligibleFile rfn.2 = true
  · rw [if_pos helig, if_pos helig]
    dsimp only
    cases hext : extract_resume_data env (pathJoin rfn.1 rfn.2) with
    | error e => rfl
    | ok tc => obtain ⟨text, ci⟩ := tc; rfl
  · rw [if_neg helig, if_neg helig]

theorem errOf_fileOutS (env : Env) (skills : List String) (θ : ℚ) :
    errOf (fileOutS env skills θ) = fileErr env := by
  funext rfn
  unfold errOf fileOutS fileErr
  by_cases helig : eligibleFile rfn.2 = true
  · rw [if_pos helig, if_pos helig]
    dsimp only
    cases hext : extract_resume_data env (pathJoin rfn.1 rfn.2) with
    | error e => rfl
    | ok tc =>
      obtain ⟨text, ci⟩ := tc
      dsimp only
      cases hsc : skillCore env skills θ rfn.2 (pathJoin rfn.1 rfn.2) text ci with
      | none => rfl
      | some r => rfl
  · rw [if_neg helig, if_neg helig]

theorem resOf_fileOutM_isSome (env : Env) (jobDesc : String) :
    (fun rfn => (resOf (fileOutM env jobDesc) rfn).isSome) = extractOk env := by
  funext rfn
  unfold resOf fileOutM extractOk
  by_cases helig : eligibleFile rfn.2 = true
  · rw [if_pos helig, helig]
    dsimp only
    cases hext : extract_resume_data env (pathJoin rfn.1 rfn.2) with
    | error e => rfl
    | ok tc => obtain ⟨text, ci⟩ := tc; rfl
  · rw [if_neg helig]
    have hf : eligibleFile rfn.2 = false := by
      cases h : eligibleFile rfn.2
      · rfl
      · exact absurd h helig
    rw [hf]
    rfl

/-- C8: in both batch operations any per-file failure is caught at the
per-file boundary: the failing file contributes no result entry, exactly
one error message carrying its path is reported, and the remaining files
are still processed — so the reported errors are exactly the extraction
failures of the eligible files, `match_resumes` produces exactly one
entry per successfully extracted eligible file, and every skill-filter
entry comes from a successfully extracted eligible file. -/
theorem c8_per_file_isolation :
    (∀ (env : Env) (jd : String) (out : List MatchResult × List String),
      match_resumes env jd = .ok out →
        out.2 = (allFiles env.walk).filterMap (fileErr env) ∧
        out.1.length = (allFiles env.walk).countP (extractOk env)) ∧
    (∀ (env : Env) (skills : List String) (θ : ℚ),
      (filter_resumes_by_skills env skills θ).2 =
        (allFiles env.walk).filterMap (fileErr env) ∧
      ∀ r ∈ (filter_resumes_by_skills env skills θ).1,
        ∃ rfn ∈ allFiles env.walk, extractOk env rfn = true) := by
  constructor
  · intro env jd out h
    cases hjd : extract_job_description env jd with
    | error e =>
      unfold match_resumes at h
      rw [hjd] at h
      exact absurd h (by simp)
    | ok jobDesc =>
      rw [match_resumes_eq env jd jobDesc hjd] at h
      obtain rfl : _ = out := by
        injection h
      constructor
      · dsimp only
        rw [errOf_fileOutM]
      · dsimp only
        rw [length_sortDesc, length_filterMap_eq_countP, resOf_fileOutM_isSome]
  · intro env skills θ
    constructor
    · rw [filter_resumes_eq]
      dsimp only
      rw [errOf_fileOutS]
    · intro r hr
      rw [filter_resumes_eq] at hr
      dsimp only at hr
      rw [mem_sortDesc, List.mem_filterMap] at hr
      obtain ⟨rfn, hmem, hres⟩ := hr
      refine ⟨rfn, hmem, ?_⟩
      unfold resOf at hres
      cases hout : fileOutS env skills θ rfn with
      | skip => rw [hout] at hres; exact absurd hres (by simp)
      | err m => rw [hout] at hres; exact absurd hres (by simp)
      | res r' =>
        unfold fileOutS at hout
        split at hout
        case isFalse => exact absurd hout (by simp)
        case isTrue helig =>
          dsimp only at hout
          cases hext : extract_resume_data env (pathJoin rfn.1 rfn.2) with
          | error e => rw [hext] at hout; exact absurd hout (by simp)
          | ok tc =>
            unfold extractOk
            rw [helig, hext]
            rfl

/-- Witness environment for batch robustness: one corrupt and one valid
resume in the same folder. -/
def c8Env : Env :=
  { noFsEnv with
    pdfPages := fun p =>
      if p = "./bad.pdf" then .error "boom" else .ok [some "Jo Ab\n"],
    walk := [(".", ["bad.pdf", "a.pdf"])] }

/-- C8 witness: the concrete corrupt-plus-valid batch yields exactly one
result entry and exactly one reported error carrying the corrupt file's
path, as given by the per-file isolation theorem. -/
theorem c8_per_file_isolation_witness :
    match_resumes c8Env "jd" =
      .ok ([⟨"Jo Ab", "", "", 0, "a.pdf", "./a.pdf"⟩],
           ["Error processing ./bad.pdf: boom"]) ∧
    ([(⟨"Jo Ab", "", "", 0, "a.pdf", "./a.pdf"⟩ : MatchResult)].length =
      (allFiles c8Env.walk).countP (extractOk c8Env)) ∧
    (["Error processing ./bad.pdf: boom"] =
      (allFiles c8Env.walk).filterMap (fileErr c8Env)) := by
  have h : match_resumes c8Env "jd" =
      .ok ([⟨"Jo Ab", "", "", 0, "a.pdf", "./a.pdf"⟩],
           ["Error processing ./bad.pdf: boom"]) := by rfl
  refine ⟨h, ?_, ?_⟩
  · exact (c8_per_file_isolation.1 c8Env "jd" _ h).2
  · exact (c8_per_file_isolation.1 c8Env "jd" _ h).1

/-- Counterexample environment for the extraction-error claim: the PDF
reader fails with a message that names nothing. -/
def c9Env : Env := { noFsEnv with pdfPages := fun _ => .error "boom" }

/-- C9 counterexample: a PDF extraction failure inside
`extract_resume_data` surfaces as the raw underlying error, whose
message identifies no format at all — there is no try/except around the
pdfplumber block in `extract_resume_data`, so the failure is not wrapped
into a descriptive format-naming error. -/
theorem c9_counterexample :
    extract_resume_data c9Env "x.pdf" = .error "boom" ∧
    pyIn "PDF" "boom" = false ∧ pyIn "pdf" "boom" = false ∧
    pyIn "Word" "boom" = false ∧ pyIn "text" "boom" = false ∧
    pyIn "format" "boom" = false := by
  exact ⟨by rfl, by decide, by decide, by decide, by decide, by decide⟩

/-- C9 (amended): extraction failures are never swallowed — they always
surface to the caller as errors.  In `extract_job_description` every
branch wraps the failure in a message naming the failing format, and in
`extract_resume_data` the Word branch and the unsupported-extension
branch do so as well, but the PDF branch of `extract_resume_data`
propagates the underlying error unchanged, without identifying the
format. -/
theorem c9_extraction_failures :
    (∀ (env : Env) (path e : String), pyEndsWith (pyLower path) ".pdf" = true →
      env.pdfPages path = .error e → extract_resume_data env path = .error e) ∧
    (∀ (env : Env) (path e : String), pyEndsWith (pyLower path) ".pdf" = false →
      pyEndsWith (pyLower path) ".docx" = true →
      env.docxParas path = .error e →
      extract_resume_data env path =
        .error ("Error extracting text from Word document: " ++ e)) ∧
    (∀ (env : Env) (path : String), pyEndsWith (pyLower path) ".pdf" = false →
      pyEndsWith (pyLower path) ".docx" = false →
      extract_resume_data env path = .error ("Unsupported file format: " ++ path)) ∧
    (∀ (env : Env) (src e : String), env.pathExists src = true →
      pyEndsWith (pyLower src) ".txt" = true → env.txtRead src = .error e →
      extract_job_description env src = .error ("Error reading text file: " ++ e)) ∧
    (∀ (env : Env) (src e : String), env.pathExists src = true →
      pyEndsWith (pyLower src) ".txt" = false →
      pyEndsWith (pyLower src) ".docx" = true → env.docxParas src = .error e →
      extract_job_description env src =
        .error ("Error extracting text from Word document: " ++ e)) ∧
    (∀ (env : Env) (src e : String), env.pathExists src = true →
      pyEndsWith (pyLower src) ".txt" = false →
      pyEndsWith (pyLower src) ".docx" = false → env.pdfPages src = .error e →
      extract_job_description env src =
        .error ("Error extracting text from PDF: " ++ e)) := by
  refine ⟨?_, ?_, ?_, ?_, ?_, ?_⟩
  · intro env path e hpdf herr
    unfold extract_resume_data extractResumeText
    rw [if_pos hpdf, herr]
  · intro env path e hpdf hdocx herr
    unfold extract_resume_data extractResumeText extract_text_from_docx
    rw [if_neg (by rw [hpdf]; exact Bool.false_ne_true), if_pos hdocx, herr]
  · intro env path hpdf hdocx
    unfold extract_resume_data extractResumeText
    rw [if_neg (by rw [hpdf]; exact Bool.false_ne_true),
        if_neg (by rw [hdocx]; exact Bool.false_ne_true)]
  · intro env src e hex htxt herr
    unfold extract_job_description
    rw [if_neg (by rw [hex]; simp), if_pos (by rw [htxt, hex]; simp), herr]
  · intro env src e hex htxt hdocx herr
    unfold extract_job_description extract_text_from_docx
    rw [if_neg (by rw [hex]; simp),
        if_neg (by rw [htxt]; simp),
        if_pos (by rw [hdocx, hex]; simp), herr]
  · intro env src e hex htxt hdocx herr
    unfold extract_job_description
    rw [if_neg (by rw [hex]; simp),
        if_neg (by rw [htxt]; simp),
        if_neg (by rw [hdocx]; simp), herr]

/-- Witness environment for the amended extraction-failure claim. -/
def c9wEnv : Env := { noFsEnv with docxParas := fun _ => .error "docx broke" }

/-- C9 witness: the Word branch applied at a concrete path, discharging
the extension and failure hypotheses there. -/
theorem c9_extraction_failures_witness :
    extract_resume_data c9wEnv "cv.docx" =
      .error ("Error extracting text from Word document: " ++ "docx broke") :=
  c9_extraction_failures.2.1 c9wEnv "cv.docx" "docx broke" (by decide) (by decide) rfl

theorem fillName_name_ne (ci : ContactInfo) (fn : String)
    (helig : eligibleFile fn = true) : (fillName ci fn).name ≠ "" := by
  unfold fillName
  by_cases h : ci.name = ""
  · rw [if_pos h]
    exact nameFromFile_ne_empty fn helig
  · rw [if_neg h]
    exact h

/-- C10: every result entry of both batch operations has a non-empty
name: whenever contact extraction yields an empty name it is replaced,
before the entry is appended, by the file name with its extension
removed (in the `os.path.splitext` sense) and underscores and hyphens
turned into spaces, and that file-derived name is never empty for an
eligible file. -/
theorem c10_nonempty_names :
    (∀ (env : Env) (jd : String) (out : List MatchResult × List String),
      match_resumes env jd = .ok out → ∀ r ∈ out.1, r.name ≠ "") ∧
    (∀ (env : Env) (skills : List String) (θ : ℚ),
      ∀ r ∈ (filter_resumes_by_skills env skills θ).1, r.name ≠ "") ∧
    (∀ (ci : ContactInfo) (fn : String),
      (fillName ci fn).name = if ci.name = "" then nameFromFile fn else ci.name) ∧
    (∀ fn : String, eligibleFile fn = true → nameFromFile fn ≠ "") := by
  refine ⟨?_, ?_, ?_, ?_⟩
  · intro env jd out h r hr
    cases hjd : extract_job_description env jd with
    | error e =>
      unfold match_resumes at h
      rw [hjd] at h
      exact absurd h (by simp)
    | ok jobDesc =>
      rw [match_resumes_eq env jd jobDesc hjd] at h
      obtain rfl : _ = out := by
        injection h
      dsimp only at hr
      rw [mem_sortDesc, List.mem_filterMap] at hr
      obtain ⟨rfn, _, hres⟩ := hr
      unfold resOf at hres
      cases hout : fileOutM env jobDesc rfn with
      | skip => rw [hout] at hres; exact absurd hres (by simp)
      | err m => rw [hout] at hres; exact absurd hres (by simp)
      | res r' =>
        rw [hout] at hres
        obtain rfl : r' = r := by simpa using hres
        unfold fileOutM at hout
        split at hout
        case isFalse => exact absurd hout (by simp)
        case isTrue helig =>
          dsimp only at hout
          cases hext : extract_resume_data env (pathJoin rfn.1 rfn.2) with
          | error e => rw [hext] at hout; exact absurd hout (by simp)
          | ok tc =>
            rw [hext] at hout
            obtain ⟨text, ci⟩ := tc
            dsimp only at hout
            obtain rfl : _ = r' := by
              injection hout
            unfold matchCore
            dsimp only
            exact fillName_name_ne ci rfn.2 helig
  · intro env skills θ r hr
    rw [filter_resumes_eq] at hr
    dsimp only at hr
    rw [mem_sortDesc, List.mem_filterMap] at hr
    obtain ⟨rfn, _, hres⟩ := hr
    unfold resOf at hres
    cases hout : fileOutS env skills θ rfn with
    | skip => rw [hout] at hres; exact absurd hres (by simp)
    | err m => rw [hout] at hres; exact absurd hres (by simp)
    | res r' =>
      rw [hout] at hres
      obtain rfl : r' = r := by simpa using hres
      unfold fileOutS at hout
      split at hout
      case isFalse => exact absurd hout (by simp)
      case isTrue helig =>
        dsimp only at hout
        cases hext : extract_resume_data env (pathJoin rfn.1 rfn.2) with
        | error e => rw [hext] at hout; exact absurd hout (by simp)
        | ok tc =>
          rw [hext] at hout
          obtain ⟨text, ci⟩ := tc
          dsimp only at hout
          cases hcore : skillCore env skills θ rfn.2 (pathJoin rfn.1 rfn.2) text ci with
          | none => rw [hcore] at hout; exact absurd hout (by simp)
          | some r'' =>
            rw [hcore] at hout
            obtain rfl : r'' = r' := by simpa using hout
            unfold skillCore at hcore
            dsimp only at hcore
            by_cases hps : (potentialSkills (env.nlp text)).isEmpty = true
            · rw [if_pos hps] at hcore
              exact absurd hcore (by simp)
            · rw [if_neg hps] at hcore
              by_cases hm : (skills.filter fun s =>
                  decide (θ ≤ listMax ((potentialSkills (env.nlp text)).map (env.sim s)))).isEmpty = true
              · rw [if_pos hm] at hcore
                exact absurd hcore (by simp)
              · rw [if_neg hm] at hcore
                obtain rfl := Option.some_inj.mp hcore
                exact fillName_name_ne ci rfn.2 helig
  · intro ci fn
    unfold fillName
    by_cases h : ci.name = ""
    · rw [if_pos h, if_pos h]
    · rw [if_neg h, if_neg h]
  · exact fun fn h => nameFromFile_ne_empty fn h

/-- Witness environment for the non-empty-name claim: the resume text
contains no extractable name and the recognition engine fails, so the
file-derived name is used. -/
def c10Env : Env :=
  { noFsEnv with
    pdfPages := fun _ => .ok [some "zz@q.io\n"],
    walk := [(".", ["John_Doe.pdf"])] }

/-- C10 witness: the entry produced for `John_Doe.pdf` — whose contact
name extraction is empty — carries the non-empty file-derived name. -/
theorem c10_nonempty_names_witness :
    (⟨"John Doe", "", "zz@q.io", 0, "John_Doe.pdf", "./John_Doe.pdf"⟩ : MatchResult).name ≠ "" := by
  have h : match_resumes c10Env "jd" =
      .ok ([⟨"John Doe", "", "zz@q.io", 0, "John_Doe.pdf", "./John_Doe.pdf"⟩], []) := by rfl
  exact c10_nonempty_names.1 c10Env "jd" _ h _ (List.mem_singleton.mpr rfl)
